import Mathlib

/-
  Verification development for the Fritter-style social feed backend.

  Shallow embedding of the core components:
  the social graph manager (follow/unfollow on user documents),
  the trust-elevation workflow (VSP request submit/accept/revoke),
  the content-trust ledger (endorse/denounce on freets), and
  the recommendation engine (findRecommended).

  The document store (MongoDB via mongoose) is modelled as lists of
  documents; findOne is List.find?, save replaces the document with the
  same id. Express routes are modelled as functions from an application
  state plus request data to an outcome: a success carrying the new state,
  a typed error response carrying the (unchanged) state, or a crash
  (an uncaught TypeError from dereferencing a null lookup result), which
  also carries the store state at the moment of the crash.
-/

set_option linter.unusedVariables false

/-- Substring test on character lists: JS String.prototype.includes. -/
def hasSubstr : List Char → List Char → Bool
  | [], pat => pat.isEmpty
  | h :: t, pat => pat.isPrefixOf (h :: t) || hasSubstr t pat

/-- JS body.includes(interest): literal substring containment. -/
def strContains (s pat : String) : Bool :=
  hasSubstr s.data pat.data

/-- Lower-casing, character by character (the effect of the regex i flag). -/
def lowerStr (s : String) : String :=
  ⟨s.data.map Char.toLower⟩

/-- JS String.prototype.trim: drop whitespace from both ends. -/
def trimStr (s : String) : String :=
  ⟨((s.data.dropWhile Char.isWhitespace).reverse.dropWhile Char.isWhitespace).reverse⟩

/-- Case-insensitive username comparison: mongoose findOne with the regex
    built in UserCollection.findOneByUsername, namely a full-string
    case-insensitive match of the document field against the trimmed query. -/
def ciEq (docName query : String) : Bool :=
  lowerStr docName == lowerStr (trimStr query)

/-- Keep the first occurrence of each string, preserving order; the seen
    accumulator mirrors the authorNames list in findRecommended. -/
def dedupFirstAux : List String → List String → List String
  | [], _ => []
  | x :: xs, seen =>
    if seen.contains x then dedupFirstAux xs seen
    else x :: dedupFirstAux xs (seen ++ [x])

def dedupFirst (l : List String) : List String :=
  dedupFirstAux l []

/-- A user document (user/model.ts, as constructed by UserCollection.addOne):
    username, password, VSP flag, interests, followers, following.
    The dateJoined field is omitted: no operation reads it. -/
structure UserDoc where
  uid : Nat
  username : String
  password : String
  vsp : Bool
  interests : List String
  followers : List String
  following : List String
deriving DecidableEq, Repr

/-- A freet document (freet/model.ts, as constructed by FreetCollection.addOne):
    author id, content, modification date (a number: larger is more recent),
    endorsements, denouncements, fact flag. dateCreated is omitted: unread. -/
structure FreetDoc where
  fid : Nat
  authorId : Nat
  content : String
  dateModified : Nat
  endorsements : List String
  denouncements : List String
  fact : Bool
deriving DecidableEq, Repr

/-- A VSP request document (vsprequest/model.ts, as constructed by
    VSPRequestCollection.addOne): username, justification content, granted
    flag. dateRequested is omitted: unread. rid models the mongo id. -/
structure VSPRequestDoc where
  rid : Nat
  username : String
  content : String
  granted : Bool
deriving DecidableEq, Repr

/-- The document store: the three collections, plus a counter supplying
    fresh ids for newly inserted request documents. -/
structure AppState where
  users : List UserDoc
  freets : List FreetDoc
  vsprequests : List VSPRequestDoc
  nextRid : Nat
deriving DecidableEq, Repr

/-- UserModel.findOne with an id filter (UserCollection.findOneByUserId). -/
def findOneByUserId (users : List UserDoc) (userId : Nat) : Option UserDoc :=
  users.find? (fun u => u.uid == userId)

/-- UserModel.findOne with an exact username filter, as used inside
    UserCollection.updateOne for the followed user. -/
def findByUsernameExact (users : List UserDoc) (username : String) : Option UserDoc :=
  users.find? (fun u => u.username == username)

/-- UserCollection.findOneByUsername: case-insensitive regex lookup. -/
def findUserByUsernameCI (users : List UserDoc) (username : String) : Option UserDoc :=
  users.find? (fun u => ciEq u.username username)

/-- Persisting a user document: replace the stored document with this id. -/
def saveUser (users : List UserDoc) (u : UserDoc) : List UserDoc :=
  users.map (fun x => if x.uid == u.uid then u else x)

/-- FreetModel.findOne with an id filter (FreetCollection.findOne). -/
def findFreet (freets : List FreetDoc) (freetId : Nat) : Option FreetDoc :=
  freets.find? (fun f => f.fid == freetId)

/-- Persisting a freet document. -/
def saveFreet (freets : List FreetDoc) (f : FreetDoc) : List FreetDoc :=
  freets.map (fun x => if x.fid == f.fid then f else x)

/-- VSPRequestCollection.findOneByUsername: case-insensitive regex lookup. -/
def findRequestCI (reqs : List VSPRequestDoc) (username : String) : Option VSPRequestDoc :=
  reqs.find? (fun r => ciEq r.username username)

/-- VSPRequestModel.findOne with an exact username filter, as used inside
    acceptOne and ungrantOne. -/
def findRequestExact (reqs : List VSPRequestDoc) (username : String) : Option VSPRequestDoc :=
  reqs.find? (fun r => r.username == username)

/-- Persisting a request document. -/
def saveRequest (reqs : List VSPRequestDoc) (r : VSPRequestDoc) : List VSPRequestDoc :=
  reqs.map (fun x => if x.rid == r.rid then r else x)

/-- The fields of req.body consumed by UserCollection.updateOne. An absent
    field is none / false; a present-but-empty string is falsy in the
    JavaScript guards, which test truthiness. -/
structure UserDetails where
  vsp : Bool := false
  revoke : Bool := false
  password : Option String := none
  username : Option String := none
  interests : Option String := none
  deleteInterest : Bool := false
  following : Option String := none
  unfollow : Bool := false
deriving DecidableEq, Repr

/-- Outcome of UserCollection.updateOne: the updated store and the updated
    user document, or a crash (TypeError on a null findOne result). Every
    crash in updateOne happens before any save call, so the store is
    unchanged when a crash propagates. -/
inductive UpdateOutcome where
  | ok (s : AppState) (u : UserDoc)
  | crash
deriving DecidableEq, Repr

/-- UserCollection.updateOne: the single mutation entry point for user
    documents. Mirrors the if-chain of the source: the VSP branch first;
    otherwise password, username, interest add/delete, then the
    follow / unfollow dual-document updates (followed user saved first,
    acting user saved last). -/
def UserCollection.updateOne (s : AppState) (userId : Nat) (d : UserDetails) : UpdateOutcome :=
  match findOneByUserId s.users userId with
  | none => .crash
  | some user =>
    if d.vsp then
      let user1 := { user with vsp := !d.revoke }
      .ok { s with users := saveUser s.users user1 } user1
    else
      let u1 := match d.password with
        | some p => if p == "" then user else { user with password := p }
        | none => user
      let u2 := match d.username with
        | some n => if n == "" then u1 else { u1 with username := n }
        | none => u1
      let u3 := match d.interests with
        | some i =>
          if i == "" then u2
          else if d.deleteInterest then { u2 with interests := u2.interests.erase i }
          else { u2 with interests := u2.interests ++ [i] }
        | none => u2
      match d.following with
      | none => .ok { s with users := saveUser s.users u3 } u3
      | some t =>
        if t == "" then .ok { s with users := saveUser s.users u3 } u3
        else if !d.unfollow then
          match findByUsernameExact s.users t with
          | none => .crash
          | some fu =>
            let fu2 := { fu with followers := fu.followers ++ [u3.username] }
            let u4 := { u3 with following := u3.following ++ [t] }
            .ok { s with users := saveUser (saveUser s.users fu2) u4 } u4
        else
          match findByUsernameExact s.users t with
          | none => .crash
          | some fu =>
            let fu2 := { fu with followers := fu.followers.erase u3.username }
            let u4 := { u3 with following := u3.following.erase t }
            .ok { s with users := saveUser (saveUser s.users fu2) u4 } u4

/-- Typed error responses returned by the routes. -/
inductive ApiError where
  | notLoggedIn
  | alreadyFollowing
  | selfFollow
  | notFollowing
  | alreadyVerified
  | requestAlreadyExists
  | notAuthorized
  | requestNotFound
  | alreadyGranted
  | notYetGranted
  | freetNotFound
  | notAFact
  | notVerified
  | alreadyEndorsed
  | alreadyDenounced
deriving DecidableEq, Repr

/-- Outcome of one route invocation. A typed error response and a crash
    both carry the store state observable afterwards; on the error paths
    the middleware responds before any handler mutation, so that state is
    the input state. -/
inductive RouteOutcome where
  | ok (s : AppState)
  | err (e : ApiError) (s : AppState)
  | crash (s : AppState)
deriving DecidableEq, Repr

/-- PATCH /api/users/followers: middleware isUserLoggedIn,
    isUserAlreadyFollowingTargetUser, isUserTryingToFollowSelf, then
    UserCollection.updateOne with body {following: target}. -/
def followRoute (s : AppState) (sessionUserId : Option Nat) (target : String) : RouteOutcome :=
  match sessionUserId with
  | none => .err .notLoggedIn s
  | some uid =>
    match findOneByUserId s.users uid with
    | none => .crash s
    | some u =>
      if u.following.contains target then .err .alreadyFollowing s
      else if u.username == target then .err .selfFollow s
      else
        match UserCollection.updateOne s uid { following := some target } with
        | .ok s2 _ => .ok s2
        | .crash => .crash s

/-- DELETE /api/users/followers: middleware isUserLoggedIn,
    isUserNotYetFollowingTargetUser, then UserCollection.updateOne with
    body {following: target, unfollow: true}. -/
def unfollowRoute (s : AppState) (sessionUserId : Option Nat) (target : String) : RouteOutcome :=
  match sessionUserId with
  | none => .err .notLoggedIn s
  | some uid =>
    match findOneByUserId s.users uid with
    | none => .crash s
    | some u =>
      if !u.following.contains target then .err .notFollowing s
      else
        match UserCollection.updateOne s uid { following := some target, unfollow := true } with
        | .ok s2 _ => .ok s2
        | .crash => .crash s

/-- POST /api/vsprequest: middleware isUserLoggedIn, isUserAlreadyVSP,
    isUserAlreadySubmittedRequest, then VSPRequestCollection.addOne with the
    username of the session user and the justification from the body. A new
    request is inserted with granted = false. -/
def submitRoute (s : AppState) (sessionUserId : Option Nat) (justification : String) : RouteOutcome :=
  match sessionUserId with
  | none => .err .notLoggedIn s
  | some uid =>
    match findOneByUserId s.users uid with
    | none => .crash s
    | some u =>
      if u.vsp then .err .alreadyVerified s
      else
        match findRequestCI s.vsprequests u.username with
        | some _ => .err .requestAlreadyExists s
        | none =>
          .ok { s with
                vsprequests := s.vsprequests ++ [⟨s.nextRid, u.username, justification, false⟩],
                nextRid := s.nextRid + 1 }

/-- PUT /api/vsprequest: middleware isUserLoggedIn, isUserAdmin (the session
    user must be the hardcoded username lola), isRequestExists,
    isRequestAlreadyAccepted, then VSPRequestCollection.acceptOne (exact
    username lookup, granted set to true and saved) followed by
    UserCollection.updateOne on the user found case-insensitively, with body
    {VSP: true}, which sets the VSP flag to true. -/
def acceptRoute (s : AppState) (sessionUserId : Option Nat) (username : String) : RouteOutcome :=
  match sessionUserId with
  | none => .err .notLoggedIn s
  | some uid =>
    match findOneByUserId s.users uid with
    | none => .crash s
    | some actor =>
      if !(actor.username == "lola") then .err .notAuthorized s
      else
        match findRequestCI s.vsprequests username with
        | none => .err .requestNotFound s
        | some r =>
          if r.granted then .err .alreadyGranted s
          else
            match findRequestExact s.vsprequests username with
            | none => .crash s
            | some r2 =>
              let r3 := { r2 with granted := true }
              let s1 := { s with vsprequests := saveRequest s.vsprequests r3 }
              match findUserByUsernameCI s1.users username with
              | none => .crash s1
              | some tu =>
                match UserCollection.updateOne s1 tu.uid { vsp := true } with
                | .ok s2 _ => .ok s2
                | .crash => .crash s1

/-- DELETE /api/vsprequest/vspstatus: middleware isUserLoggedIn, isUserAdmin,
    isRequestExists, isRequestNotYetGranted, then
    VSPRequestCollection.ungrantOne (exact username lookup, granted set to
    false and saved) followed by UserCollection.updateOne on the user found
    case-insensitively, with body {VSP: true, revoke: true}, which sets the
    VSP flag to false. The request document is not deleted. -/
def revokeRoute (s : AppState) (sessionUserId : Option Nat) (username : String) : RouteOutcome :=
  match sessionUserId with
  | none => .err .notLoggedIn s
  | some uid =>
    match findOneByUserId s.users uid with
    | none => .crash s
    | some actor =>
      if !(actor.username == "lola") then .err .notAuthorized s
      else
        match findRequestCI s.vsprequests username with
        | none => .err .requestNotFound s
        | some r =>
          if !r.granted then .err .notYetGranted s
          else
            match findRequestExact s.vsprequests username with
            | none => .crash s
            | some r2 =>
              let r3 := { r2 with granted := false }
              let s1 := { s with vsprequests := saveRequest s.vsprequests r3 }
              match findUserByUsernameCI s1.users username with
              | none => .crash s1
              | some tu =>
                match UserCollection.updateOne s1 tu.uid { vsp := true, revoke := true } with
                | .ok s2 _ => .ok s2
                | .crash => .crash s1

/-- Modelled from the spec: the freet router is not present under src (only
    the freet middleware and FreetCollection are), so the route wiring of
    the endorse mutation is taken from the spec: the route validates the
    content-type gate, the role gate and the membership precondition before
    the single set-insert, with failure kinds NotAFact and NotVerified in
    that order (the spec scenario has a verified user on a non-fact item
    failing with NotAFact). The checks themselves are embedded from the src
    middleware (isFreetExists, isFreetAFact, isUserVSP,
    isUserAlreadyEndorsed) and the mutation from
    FreetCollection.addOneEndorsement (push the username, save the freet). -/
def endorseRoute (s : AppState) (sessionUserId : Option Nat) (freetId : Nat) : RouteOutcome :=
  match sessionUserId with
  | none => .err .notLoggedIn s
  | some uid =>
    match findFreet s.freets freetId with
    | none => .err .freetNotFound s
    | some f =>
      if !f.fact then .err .notAFact s
      else
        match findOneByUserId s.users uid with
        | none => .crash s
        | some u =>
          if !u.vsp then .err .notVerified s
          else if f.endorsements.contains u.username then .err .alreadyEndorsed s
          else
            let f2 := { f with endorsements := f.endorsements ++ [u.username] }
            .ok { s with freets := saveFreet s.freets f2 }

/-- Modelled from the spec: denounce route wiring, symmetric to
    endorseRoute; the membership check is isUserAlreadyDenounced and the
    mutation is FreetCollection.addOneDenouncement, both embedded from src. -/
def denounceRoute (s : AppState) (sessionUserId : Option Nat) (freetId : Nat) : RouteOutcome :=
  match sessionUserId with
  | none => .err .notLoggedIn s
  | some uid =>
    match findFreet s.freets freetId with
    | none => .err .freetNotFound s
    | some f =>
      if !f.fact then .err .notAFact s
      else
        match findOneByUserId s.users uid with
        | none => .crash s
        | some u =>
          if !u.vsp then .err .notVerified s
          else if f.denouncements.contains u.username then .err .alreadyDenounced s
          else
            let f2 := { f with denouncements := f.denouncements ++ [u.username] }
            .ok { s with freets := saveFreet s.freets f2 }

/-- Stable insertion step for sorting freets by dateModified, most recent
    first (FreetModel.find({}).sort({dateModified: -1})). -/
def insertDesc (x : FreetDoc) : List FreetDoc → List FreetDoc
  | [] => [x]
  | y :: ys => if x.dateModified ≤ y.dateModified then y :: insertDesc x ys else x :: y :: ys

/-- Sort freets by dateModified descending (stable). -/
def sortDesc (l : List FreetDoc) : List FreetDoc :=
  l.foldr insertDesc []

/-- First loop of UserCollection.findRecommended: keep the freets whose
    author is not already followed; each author is resolved with
    findOneByUserId, and a missing author crashes the whole computation
    (none). -/
def freetsNotFollowed (users : List UserDoc) (following : List String) :
    List FreetDoc → Option (List FreetDoc)
  | [] => some []
  | f :: rest =>
    match findOneByUserId users f.authorId with
    | none => none
    | some a =>
      match freetsNotFollowed users following rest with
      | none => none
      | some tail =>
        some (if following.contains a.username then tail else f :: tail)

/-- Third loop of UserCollection.findRecommended: resolve each author and
    collect the author documents, skipping authors already collected
    (the authorNames accumulator). -/
def collectAuthors (users : List UserDoc) :
    List FreetDoc → List String → Option (List UserDoc)
  | [], _ => some []
  | f :: rest, names =>
    match findOneByUserId users f.authorId with
    | none => none
    | some a =>
      if names.contains a.username then collectAuthors users rest names
      else
        match collectAuthors users rest (names ++ [a.username]) with
        | none => none
        | some tail => some (a :: tail)

/-- UserCollection.findRecommended: scan all freets most-recent-first, keep
    those whose author is not followed by the user, keep those whose content
    contains one of the interests as a literal substring (the inner loop
    with break), then collect the distinct authors in order of first match.
    none models the crash on a null lookup. -/
def UserCollection.findRecommended (s : AppState) (userId : Nat) : Option (List UserDoc) :=
  match findOneByUserId s.users userId with
  | none => none
  | some user =>
    match freetsNotFollowed s.users user.following (sortDesc s.freets) with
    | none => none
    | some freetsToCheck =>
      collectAuthors s.users
        (freetsToCheck.filter (fun f => user.interests.any (fun i => strContains f.content i))) []

/-- One social-graph operation, as invoked through the routes. -/
inductive GraphOp where
  | follow (uid : Nat) (target : String)
  | unfollow (uid : Nat) (target : String)
deriving DecidableEq, Repr

def applyGraphOp (s : AppState) : GraphOp → RouteOutcome
  | .follow uid t => followRoute s (some uid) t
  | .unfollow uid t => unfollowRoute s (some uid) t

/-- Run a sequence of follow/unfollow calls, each of which must pass its
    precondition checks and complete (none as soon as one does not). -/
def runGraph : AppState → List GraphOp → Option AppState
  | s, [] => some s
  | s, op :: rest =>
    match applyGraphOp s op with
    | .ok s2 => runGraph s2 rest
    | _ => none

/-- Document ids are pairwise distinct (a property of the store). -/
def idsNodup (s : AppState) : Prop :=
  (s.users.map (fun u => u.uid)).Nodup

/-- Usernames are pairwise distinct (the data model declares username
    unique). -/
def namesNodup (s : AppState) : Prop :=
  (s.users.map (fun u => u.username)).Nodup

/-- Edge uniqueness: no duplicate entries in following / followers. -/
def edgeNodup (s : AppState) : Prop :=
  ∀ u ∈ s.users, u.following.Nodup ∧ u.followers.Nodup

/-- No self-edges. -/
def noSelfEdge (s : AppState) : Prop :=
  ∀ u ∈ s.users, u.username ∉ u.following

/-- Graph symmetry: for all users A, B with distinct usernames,
    B.username is in A.following iff A.username is in B.followers. -/
def symInv (s : AppState) : Prop :=
  ∀ a ∈ s.users, ∀ b ∈ s.users, a.username ≠ b.username →
    (b.username ∈ a.following ↔ a.username ∈ b.followers)

/-- Well-formed graph state: the data-model invariants of section 3 of the
    spec (unique ids and usernames, edge uniqueness, no self-edges) together
    with graph symmetry. -/
def GraphWF (s : AppState) : Prop :=
  idsNodup s ∧ namesNodup s ∧ edgeNodup s ∧ noSelfEdge s ∧ symInv s

instance : DecidablePred symInv := fun s => by unfold symInv; infer_instance

instance : Decidable (GraphWF s) := by unfold GraphWF; unfold idsNodup namesNodup edgeNodup noSelfEdge; infer_instance

/-- The trust-elevation states per username, exactly as the spec names
    them: None (no live request or previously revoked), Pending (submitted,
    not yet decided), Granted (accepted, user currently verified). -/
inductive SpecVSPState where
  | noRequest
  | pending
  | granted
deriving DecidableEq, Repr

/-- The workflow actions. -/
inductive VSPAct where
  | submit
  | accept
  | revoke
deriving DecidableEq, Repr

/-- The spec transition relation on workflow states: submit is allowed only
    from None, accept only from Pending, revoke only from Granted; a
    disallowed action fails and leaves the state unchanged. -/
def specVSPStep : SpecVSPState → VSPAct → SpecVSPState
  | .noRequest, .submit => .pending
  | .pending, .accept => .granted
  | .granted, .revoke => .noRequest
  | st, _ => st

/-- The spec workflow state after a sequence of successful actions starting
    from None. -/
def specVSPStateOf (acts : List VSPAct) : SpecVSPState :=
  acts.foldl specVSPStep .noRequest

/-- The administrative identity: the hardcoded username lola. -/
def lolaDoc : UserDoc :=
  ⟨0, "lola", "adminpw", false, [], [], []⟩

/-- A fresh, unverified user with a given username and no edges. -/
def plainUser (u : String) : UserDoc :=
  ⟨1, u, "pw", false, [], [], []⟩

/-- The same user with the VSP flag granted. -/
def vspUser (u : String) : UserDoc :=
  ⟨1, u, "pw", true, [], [], []⟩

/-- Canonical workflow scenario, before any request: the admin and one
    plain user. -/
def vspInit (u : String) : AppState :=
  ⟨[lolaDoc, plainUser u], [], [], 0⟩

/-- The scenario state after a successful submit: one request document with
    granted = false. The state after a successful revoke is this same state:
    revoke only resets granted to false and the VSP flag, it does not delete
    the request document. -/
def vspPending (u j : String) : AppState :=
  ⟨[lolaDoc, plainUser u], [], [⟨0, u, j, false⟩], 1⟩

/-- The scenario state after a successful accept: the request has
    granted = true and the user has the VSP flag. -/
def vspGrantedState (u j : String) : AppState :=
  ⟨[lolaDoc, vspUser u], [], [⟨0, u, j, true⟩], 1⟩

/-- User alice with one interest and no follows, for the recommendation
    scenarios. -/
def aliceDoc : UserDoc :=
  ⟨1, "alice", "pw", false, ["rust"], [], []⟩

/-- Self-recommendation state: the only content item is authored by alice
    herself and its body contains her interest. -/
def selfRecState : AppState :=
  ⟨[aliceDoc], [⟨0, 1, "I love rust", 0, [], [], false⟩], [], 0⟩

def bobDoc : UserDoc :=
  ⟨2, "bob", "pw", false, [], [], []⟩

def carolDoc : UserDoc :=
  ⟨3, "carol", "pw", false, [], [], []⟩

/-- The spec scenario for the recommendation engine: alice with interest
    rust follows no one; bob posted a body containing rust, carol a body
    containing go. -/
def recScenState : AppState :=
  ⟨[aliceDoc, bobDoc, carolDoc],
   [⟨0, 2, "I love rust", 2, [], [], false⟩, ⟨1, 3, "I love go", 1, [], [], false⟩],
   [], 0⟩

/-- A state with a single user and a dangling edge to a username with no
    user document (as left behind by an account deletion). -/
def danglingState : AppState :=
  ⟨[⟨1, "alice", "pw", false, [], [], ["ghost"]⟩], [], [], 0⟩

/-- A single-user state with no edges. -/
def aliceOnlyState : AppState :=
  ⟨[aliceDoc], [], [], 0⟩

/-- A state that satisfies graph symmetry as a membership property but has
    a duplicated entry in a following list. -/
def dupEdgeState : AppState :=
  ⟨[⟨0, "a", "pw", false, [], [], ["b", "b"]⟩,
    ⟨1, "b", "pw", false, [], ["a"], []⟩], [], [], 0⟩

/-- The state reached from dupEdgeState by one validated unfollow: the
    second copy of the edge survives in a.following while b.followers has
    lost the reverse edge. -/
def dupEdgeStateAfter : AppState :=
  ⟨[⟨0, "a", "pw", false, [], [], ["b"]⟩,
    ⟨1, "b", "pw", false, [], [], []⟩], [], [], 0⟩

/-- Two users with no edges, a well-formed starting state. -/
def twoUserState : AppState :=
  ⟨[⟨0, "a", "pw", false, [], [], []⟩,
    ⟨1, "b", "pw", false, [], [], []⟩], [], [], 0⟩

/-- twoUserState after a follows b. -/
def twoUserStateAfter : AppState :=
  ⟨[⟨0, "a", "pw", false, [], [], ["b"]⟩,
    ⟨1, "b", "pw", false, [], ["a"], []⟩], [], [], 0⟩

/-- The username of the author of a freet, for states in which every author
    resolves (the default is never used under that hypothesis). -/
def authorNameOf (users : List UserDoc) (f : FreetDoc) : String :=
  match findOneByUserId users f.authorId with
  | some a => a.username
  | none => ""

/-- Written from the words of the spec, for comparison with the embedded
    findRecommended: scan all content items most-recent-first, keep those
    whose author is not already followed by the user and whose body contains
    one of the interests as a literal substring, and return the distinct
    matching authors in order of first match. -/
def recommendSpecNames (s : AppState) (user : UserDoc) : List String :=
  dedupFirst
    (((sortDesc s.freets).filter (fun f =>
        !(user.following.contains (authorNameOf s.users f)) &&
        user.interests.any (fun i => strContains f.content i))).map (authorNameOf s.users))

/-- The usernames returned by findRecommended, when it completes. -/
def recommendedNames (s : AppState) (userId : Nat) : Option (List String) :=
  (UserCollection.findRecommended s userId).map (fun l => l.map (fun u => u.username))

/-- C5. The self-follow check: follow of a user on their own username fails
    with SelfFollow for every state in which that user has no self-edge (the
    no-self-edge invariant of the data model; the already-following check of
    the route runs first, so the hypothesis is what routes order demands),
    and the state returned with the error response is the input state. -/
theorem selfFollow_rejected (s : AppState) (uid : Nat) (u : UserDoc)
    (hu : findOneByUserId s.users uid = some u)
    (hself : u.following.contains u.username = false) :
    followRoute s (some uid) u.username = .err .selfFollow s := by
  have h2 : u.username ∉ u.following := by simpa using hself
  simp [followRoute, hu, h2]

theorem selfFollow_rejected_witness :
    followRoute aliceOnlyState (some 1) "alice" = .err .selfFollow aliceOnlyState := by
  have h := selfFollow_rejected aliceOnlyState 1 aliceDoc (by decide) (by decide)
  exact h

/-- C6. Follow on an existing edge: whenever the target username is already
    in the following list of the acting user, the follow route fails with
    AlreadyFollowing and the state returned with the error response is the
    input state, so no document changes. -/
theorem alreadyFollowing_rejected (s : AppState) (uid : Nat) (u : UserDoc) (target : String)
    (hu : findOneByUserId s.users uid = some u)
    (hmem : u.following.contains target = true) :
    followRoute s (some uid) target = .err .alreadyFollowing s := by
  have h2 : target ∈ u.following := by simpa using hmem
  simp [followRoute, hu, h2]

theorem alreadyFollowing_rejected_witness :
    followRoute twoUserStateAfter (some 0) "b" = .err .alreadyFollowing twoUserStateAfter := by
  have h := alreadyFollowing_rejected twoUserStateAfter 0
    ⟨0, "a", "pw", false, [], [], ["b"]⟩ "b" (by decide) (by decide)
  exact h

/-- C10. Follow and unfollow are total only when the target user exists:
    at these concrete inputs the requested target username matches no user
    document, every precondition check passes, and updateOne dereferences
    the null result of its username lookup, so the route ends in an uncaught
    TypeError (crash) rather than a typed NotFoundError response. -/
theorem follow_missing_target_crashes :
    followRoute aliceOnlyState (some 1) "ghost" = .crash aliceOnlyState ∧
    unfollowRoute danglingState (some 1) "ghost" = .crash danglingState := by
  constructor
  · decide
  · decide

/-- C2 (code evidence). findRecommended does not exclude the user themself:
    with alice having the non-empty interest set [rust], following no one,
    and being the author of the only content item, whose body contains
    rust, the recommendation output is exactly alice, so it contains the
    username of the user it was computed for. -/
theorem findRecommended_returns_self :
    UserCollection.findRecommended selfRecState 1 = some [aliceDoc] ∧
    aliceDoc.username = "alice" ∧
    aliceDoc.interests ≠ [] := by
  refine ⟨by decide, rfl, by decide⟩

/-- C9. Role and type gating of the content-trust ledger: with the session
    user and the freet both resolving, if the fact flag of the freet is
    false then both the endorse and the denounce route fail with NotAFact,
    and if the freet is a fact but the acting user is not verified then both
    fail with NotVerified; in each case the state returned with the error is
    the input state, so the endorser and denouncer sets are unchanged. -/
theorem endorse_denounce_gating (s : AppState) (uid : Nat) (u : UserDoc) (fid : Nat) (f : FreetDoc)
    (hu : findOneByUserId s.users uid = some u)
    (hf : findFreet s.freets fid = some f) :
    (f.fact = false →
      endorseRoute s (some uid) fid = .err .notAFact s ∧
      denounceRoute s (some uid) fid = .err .notAFact s) ∧
    (f.fact = true → u.vsp = false →
      endorseRoute s (some uid) fid = .err .notVerified s ∧
      denounceRoute s (some uid) fid = .err .notVerified s) := by
  constructor
  · intro hfact
    constructor
    · simp [endorseRoute, hf, hu, hfact]
    · simp [denounceRoute, hf, hu, hfact]
  · intro hfact hvsp
    constructor
    · simp [endorseRoute, hf, hu, hfact, hvsp]
    · simp [denounceRoute, hf, hu, hfact, hvsp]

theorem endorse_denounce_gating_witness :
    endorseRoute selfRecState (some 1) 0 = .err .notAFact selfRecState := by
  have h := (endorse_denounce_gating selfRecState 1 aliceDoc 0
    ⟨0, 1, "I love rust", 0, [], [], false⟩ (by decide) (by decide)).1 (by decide)
  exact h.1

/-- Characterization of the submit route on any state in which the session
    user resolves: it fails with AlreadyVerified when the VSP flag of the
    user is set; otherwise it fails with RequestAlreadyExists whenever any
    request document for the username exists, granted or not (revoke does
    not delete the request document, so this includes previously revoked
    requests); otherwise it succeeds and inserts a request with
    granted = false. -/
theorem submit_characterization (s : AppState) (uid : Nat) (u : UserDoc) (j : String)
    (hu : findOneByUserId s.users uid = some u) :
    (u.vsp = true → submitRoute s (some uid) j = .err .alreadyVerified s) ∧
    (u.vsp = false → ∀ r, findRequestCI s.vsprequests u.username = some r →
      submitRoute s (some uid) j = .err .requestAlreadyExists s) ∧
    (u.vsp = false → findRequestCI s.vsprequests u.username = none →
      submitRoute s (some uid) j =
        .ok { s with vsprequests := s.vsprequests ++ [⟨s.nextRid, u.username, j, false⟩],
                     nextRid := s.nextRid + 1 }) := by
  refine ⟨fun hv => ?_, fun hv r hr => ?_, fun hv hr => ?_⟩
  · simp [submitRoute, hu, hv]
  · simp [submitRoute, hu, hv, hr]
  · simp [submitRoute, hu, hv, hr]

theorem submit_characterization_witness :
    submitRoute (vspInit "dave") (some 1) "plz" = .ok (vspPending "dave" "plz") := by
  have h := (submit_characterization (vspInit "dave") 1 (plainUser "dave") "plz"
    (by decide)).2.2 (by decide) (by decide)
  exact h

/-- C4 fails on the code at this input: after submit, accept and revoke for
    dave (so per the spec state machine the username is back in state None,
    having been previously revoked, and the verified flag of the user is
    false), a new submit does not succeed: it fails with
    RequestAlreadyExists, because the revoked request document still exists;
    so RequestAlreadyExists is not raised only when a Pending request
    exists, and submit is not allowed from a previously-revoked state. -/
theorem submit_after_revoke_rejected :
    submitRoute (vspInit "dave") (some 1) "plz" = .ok (vspPending "dave" "plz") ∧
    acceptRoute (vspPending "dave" "plz") (some 0) "dave" = .ok (vspGrantedState "dave" "plz") ∧
    revokeRoute (vspGrantedState "dave" "plz") (some 0) "dave" = .ok (vspPending "dave" "plz") ∧
    specVSPStateOf [.submit, .accept, .revoke] = .noRequest ∧
    (plainUser "dave").vsp = false ∧
    submitRoute (vspPending "dave" "plz") (some 1) "again" =
      .err .requestAlreadyExists (vspPending "dave" "plz") := by
  decide

/-- The submit route on the canonical two-user scenario, for any username
    and justification. -/
theorem submit_step (u j : String) :
    submitRoute (vspInit u) (some 1) j = .ok (vspPending u j) := by
  rfl

/-- The accept route on the canonical pending scenario: for any username in
    canonical form (equal to itself under the case-insensitive comparison)
    that is not the admin username, accept by the admin succeeds, setting
    granted = true on the request and the VSP flag on the user. -/
theorem accept_step (u j : String) (h1 : ciEq u u = true) (h2 : ciEq "lola" u = false) :
    acceptRoute (vspPending u j) (some 0) u = .ok (vspGrantedState u j) := by
  simp [acceptRoute, vspPending, vspGrantedState, findOneByUserId, lolaDoc, plainUser, vspUser,
    findRequestCI, findRequestExact, findUserByUsernameCI, saveRequest,
    UserCollection.updateOne, saveUser, List.find?, h1, h2]

/-- The revoke route on the canonical granted scenario: revoke by the admin
    succeeds and the resulting state is exactly the pending-shaped state:
    granted = false on the (persisting) request, VSP flag cleared. -/
theorem revoke_step (u j : String) (h1 : ciEq u u = true) (h2 : ciEq "lola" u = false) :
    revokeRoute (vspGrantedState u j) (some 0) u = .ok (vspPending u j) := by
  simp [revokeRoute, vspPending, vspGrantedState, findOneByUserId, lolaDoc, plainUser, vspUser,
    findRequestCI, findRequestExact, findUserByUsernameCI, saveRequest,
    UserCollection.updateOne, saveUser, List.find?, h1, h2]

/-- Accept on an already-granted request fails with AlreadyGranted. -/
theorem accept_granted_rejected (u j : String) (h1 : ciEq u u = true) :
    acceptRoute (vspGrantedState u j) (some 0) u =
      .err .alreadyGranted (vspGrantedState u j) := by
  simp [acceptRoute, vspGrantedState, findOneByUserId, lolaDoc, vspUser,
    findRequestCI, List.find?, h1]

/-- Accept with no request document fails with RequestNotFound. -/
theorem accept_norequest_rejected (u : String) :
    acceptRoute (vspInit u) (some 0) u = .err .requestNotFound (vspInit u) := by
  simp [acceptRoute, vspInit, findOneByUserId, lolaDoc, findRequestCI, List.find?]

/-- C3 amended. For every username in canonical form distinct from the
    admin username, after the successful sequence submit, accept, revoke on
    the canonical scenario, the verified flag of the user is false; but a
    further accept for that username succeeds without a new submit, because
    revoke leaves the request document in place with granted = false (the
    post-revoke state is literally the pending-shaped state), so the claim
    that no further accept can run holds only up to the AlreadyVerified
    check never being reached: the accept preconditions all pass again. -/
theorem revoke_clears_flag_but_accept_reruns (u j : String)
    (h1 : ciEq u u = true) (h2 : ciEq "lola" u = false) :
    submitRoute (vspInit u) (some 1) j = .ok (vspPending u j) ∧
    acceptRoute (vspPending u j) (some 0) u = .ok (vspGrantedState u j) ∧
    revokeRoute (vspGrantedState u j) (some 0) u = .ok (vspPending u j) ∧
    findUserByUsernameCI (vspPending u j).users u = some (plainUser u) ∧
    (plainUser u).vsp = false ∧
    acceptRoute (vspPending u j) (some 0) u = .ok (vspGrantedState u j) := by
  refine ⟨submit_step u j, accept_step u j h1 h2, revoke_step u j h1 h2, ?_, rfl,
    accept_step u j h1 h2⟩
  simp [findUserByUsernameCI, vspPending, lolaDoc, plainUser, List.find?, h1, h2]

theorem revoke_clears_flag_but_accept_reruns_witness :
    (plainUser "dave").vsp = false ∧
    acceptRoute (vspPending "dave" "plz") (some 0) "dave" =
      .ok (vspGrantedState "dave" "plz") := by
  have h := revoke_clears_flag_but_accept_reruns "dave" "plz" (by decide) (by decide)
  exact ⟨h.2.2.2.2.1, h.2.2.2.2.2⟩

/-- C3 fails on the code at this input: dave submits, the admin accepts and
    then revokes — all successful — and then a further accept for dave,
    with no new submit in between, succeeds (it does not fail), because the
    revoked request document persists with granted = false and passes every
    accept precondition again. -/
theorem accept_after_revoke_succeeds :
    submitRoute (vspInit "dave") (some 1) "plz" = .ok (vspPending "dave" "plz") ∧
    acceptRoute (vspPending "dave" "plz") (some 0) "dave" = .ok (vspGrantedState "dave" "plz") ∧
    revokeRoute (vspGrantedState "dave" "plz") (some 0) "dave" = .ok (vspPending "dave" "plz") ∧
    acceptRoute (vspPending "dave" "plz") (some 0) "dave" = .ok (vspGrantedState "dave" "plz") := by
  decide

/-- C8 amended. For every username in canonical form distinct from the
    admin username, on the canonical scenario: accept by the admin succeeds
    exactly when a request document exists with granted = false — a class
    that contains both a fresh Pending request and a previously revoked one
    (revoke returns the state to the pending shape) — and on success sets
    granted = true on the request and the verified flag on the user; a
    second consecutive accept fails with AlreadyGranted; accept with no
    request document fails with RequestNotFound. -/
theorem accept_characterized (u j : String)
    (h1 : ciEq u u = true) (h2 : ciEq "lola" u = false) :
    acceptRoute (vspPending u j) (some 0) u = .ok (vspGrantedState u j) ∧
    acceptRoute (vspGrantedState u j) (some 0) u = .err .alreadyGranted (vspGrantedState u j) ∧
    acceptRoute (vspInit u) (some 0) u = .err .requestNotFound (vspInit u) ∧
    revokeRoute (vspGrantedState u j) (some 0) u = .ok (vspPending u j) :=
  ⟨accept_step u j h1 h2, accept_granted_rejected u j h1,
   accept_norequest_rejected u, revoke_step u j h1 h2⟩

theorem accept_characterized_witness :
    acceptRoute (vspPending "eve" "plz") (some 0) "eve" = .ok (vspGrantedState "eve" "plz") ∧
    acceptRoute (vspGrantedState "eve" "plz") (some 0) "eve" =
      .err .alreadyGranted (vspGrantedState "eve" "plz") := by
  have h := accept_characterized "eve" "plz" (by decide) (by decide)
  exact ⟨h.1, h.2.1⟩

/-- C8 fails on the code at this input: per the spec state machine the
    sequence submit, accept, revoke leaves dave in state None, not Pending;
    yet accept succeeds from the resulting state, so accept does not
    succeed only when a Pending request exists. -/
theorem accept_succeeds_from_nonpending :
    specVSPStateOf [.submit, .accept, .revoke] = .noRequest ∧
    specVSPStateOf [.submit, .accept, .revoke] ≠ .pending ∧
    submitRoute (vspInit "fred") (some 1) "plz" = .ok (vspPending "fred" "plz") ∧
    acceptRoute (vspPending "fred" "plz") (some 0) "fred" = .ok (vspGrantedState "fred" "plz") ∧
    revokeRoute (vspGrantedState "fred" "plz") (some 0) "fred" = .ok (vspPending "fred" "plz") ∧
    acceptRoute (vspPending "fred" "plz") (some 0) "fred" = .ok (vspGrantedState "fred" "plz") := by
  decide

theorem mem_insertDesc {x a : FreetDoc} {l : List FreetDoc} :
    a ∈ insertDesc x l ↔ a = x ∨ a ∈ l := by
  induction l with
  | nil => simp [insertDesc]
  | cons y ys ih =>
    unfold insertDesc
    by_cases h : x.dateModified ≤ y.dateModified
    · rw [if_pos h]
      simp [List.mem_cons, ih, or_left_comm]
    · rw [if_neg h]
      simp [List.mem_cons]

theorem mem_sortDesc {a : FreetDoc} {l : List FreetDoc} :
    a ∈ sortDesc l ↔ a ∈ l := by
  induction l with
  | nil => simp [sortDesc]
  | cons y ys ih =>
    unfold sortDesc at *
    simp [List.foldr_cons, mem_insertDesc, ih]

/-- The first loop of findRecommended computes, on author-resolving states,
    the filter that drops freets by followed authors. -/
theorem freetsNotFollowed_eq (users : List UserDoc) (fol : List String) (l : List FreetDoc)
    (h : ∀ f ∈ l, (findOneByUserId users f.authorId).isSome = true) :
    freetsNotFollowed users fol l =
      some (l.filter (fun f => !(fol.contains (authorNameOf users f)))) := by
  induction l with
  | nil => simp [freetsNotFollowed]
  | cons f rest ih =>
    have hf : (findOneByUserId users f.authorId).isSome = true := h f (by simp)
    obtain ⟨a, ha⟩ := Option.isSome_iff_exists.mp hf
    have hrest := ih (fun g hg => h g (by simp [hg]))
    unfold freetsNotFollowed
    rw [ha, hrest]
    have hname : authorNameOf users f = a.username := by
      unfold authorNameOf
      rw [ha]
    by_cases hc : fol.contains a.username
    · simp [hc, List.filter_cons, hname]
    · simp [hc, List.filter_cons, hname]

/-- The third loop of findRecommended collects, on author-resolving states,
    exactly the author usernames with first occurrences kept, given the
    already-seen accumulator. -/
theorem collectAuthors_names (users : List UserDoc) (l : List FreetDoc) (names : List String)
    (h : ∀ f ∈ l, (findOneByUserId users f.authorId).isSome = true) :
    (collectAuthors users l names).map (fun ds => ds.map (fun d => d.username)) =
      some (dedupFirstAux (l.map (authorNameOf users)) names) := by
  induction l generalizing names with
  | nil => simp [collectAuthors, dedupFirstAux]
  | cons f rest ih =>
    have hf : (findOneByUserId users f.authorId).isSome = true := h f (by simp)
    obtain ⟨a, ha⟩ := Option.isSome_iff_exists.mp hf
    have hrest := fun names2 => ih names2 (fun g hg => h g (by simp [hg]))
    have hname : authorNameOf users f = a.username := by
      unfold authorNameOf
      rw [ha]
    unfold collectAuthors
    rw [ha]
    by_cases hc : names.contains a.username
    · have hc2 : a.username ∈ names := by simpa using hc
      simp only [hc, if_true, List.map_cons, hname]
      rw [hrest names]
      simp [dedupFirstAux, hc2]
    · have hc2 : a.username ∉ names := by simpa using hc
      simp only [hc, if_false, Bool.false_eq_true, List.map_cons, hname]
      have h2 := hrest (names ++ [a.username])
      obtain ⟨tail, htail, htnames⟩ := Option.map_eq_some'.mp h2
      rw [htail]
      simp only [Option.map_some', List.map_cons, htnames]
      simp [dedupFirstAux, hc2]

/-- C7. The recommendation engine matches the spec algorithm: on every
    state in which the requesting user and all content authors resolve, the
    usernames returned by findRecommended are exactly the distinct authors,
    in order of each author's first matching item, of the content scan
    most-recent-first filtered to items whose author is not followed by the
    user and whose body contains at least one interest as a literal
    substring. -/
theorem findRecommended_matches_spec (s : AppState) (uid : Nat) (user : UserDoc)
    (hu : findOneByUserId s.users uid = some user)
    (hAuth : ∀ f ∈ s.freets, (findOneByUserId s.users f.authorId).isSome = true) :
    recommendedNames s uid = some (recommendSpecNames s user) := by
  have hsorted : ∀ f ∈ sortDesc s.freets, (findOneByUserId s.users f.authorId).isSome = true :=
    fun f hf => hAuth f (mem_sortDesc.mp hf)
  unfold recommendedNames UserCollection.findRecommended
  simp only [hu]
  rw [freetsNotFollowed_eq s.users user.following (sortDesc s.freets) hsorted]
  have hmem2 : ∀ f ∈ ((sortDesc s.freets).filter
      (fun f => !(user.following.contains (authorNameOf s.users f)))).filter
        (fun f => user.interests.any (fun i => strContains f.content i)),
      (findOneByUserId s.users f.authorId).isSome = true := by
    intro f hf
    exact hsorted f (List.mem_filter.mp (List.mem_filter.mp hf).1).1
  rw [collectAuthors_names s.users _ [] hmem2]
  unfold recommendSpecNames dedupFirst
  rw [List.filter_filter]
  congr 2
  congr 1
  apply List.filter_congr
  intro f hf
  rw [Bool.and_comm]

theorem findRecommended_matches_spec_witness :
    recommendedNames recScenState 1 = some ["bob"] ∧ aliceDoc.interests ≠ [] := by
  have h := findRecommended_matches_spec recScenState 1 aliceDoc (by decide) (by decide)
  exact ⟨h.trans (by decide), by decide⟩

theorem saveUser_map_uid (l : List UserDoc) (w : UserDoc) :
    (saveUser l w).map (fun x => x.uid) = l.map (fun x => x.uid) := by
  unfold saveUser
  rw [List.map_map]
  apply List.map_congr_left
  intro x hx
  by_cases h : x.uid = w.uid
  · simp only [Function.comp]
    rw [if_pos (by simpa using h), h]
  · simp only [Function.comp]
    rw [if_neg (by simpa using h)]

theorem saveUser_map_username (l : List UserDoc) (w x0 : UserDoc)
    (hids : (l.map (fun x => x.uid)).Nodup) (hx0 : x0 ∈ l)
    (huid : w.uid = x0.uid) (hname : w.username = x0.username) :
    (saveUser l w).map (fun x => x.username) = l.map (fun x => x.username) := by
  unfold saveUser
  rw [List.map_map]
  apply List.map_congr_left
  intro x hx
  by_cases h : x.uid = w.uid
  · have hx0x : x = x0 := List.inj_on_of_nodup_map hids hx hx0 (by rw [h, huid])
    simp only [Function.comp]
    rw [if_pos (by simpa using h), hname, hx0x]
  · simp only [Function.comp]
    rw [if_neg (by simpa using h)]

theorem saveUser_eq_self (l : List UserDoc) (u : UserDoc)
    (h : ∀ x ∈ l, x.uid = u.uid → x = u) : saveUser l u = l := by
  unfold saveUser
  have : ∀ x ∈ l, (if x.uid == u.uid then u else x) = x := by
    intro x hx
    by_cases hb : x.uid == u.uid
    · have h2 : x.uid = u.uid := by simpa using hb
      rw [if_pos hb, h x hx h2]
    · rw [if_neg hb]
  rw [List.map_congr_left this]
  simp

theorem mem_saveUser {l : List UserDoc} {w y : UserDoc}
    (hy : y ∈ saveUser l w) : ∃ x ∈ l, y = if x.uid == w.uid then w else x := by
  unfold saveUser at hy
  obtain ⟨x, hx, hxy⟩ := List.mem_map.mp hy
  exact ⟨x, hx, hxy.symm⟩

theorem mem_saveUser_of_mem {l : List UserDoc} {w x : UserDoc}
    (hx : x ∈ l) (hne : ¬ x.uid = w.uid) : x ∈ saveUser l w := by
  unfold saveUser
  have : x = (fun y => if y.uid == w.uid then w else y) x := by
    simp [hne]
  rw [this]
  exact List.mem_map_of_mem _ hx

/-- After the two saves of a follow or unfollow mutation, every stored user
    document is the updated acting user, the updated followed user, or an
    untouched document distinct from both. -/
theorem mem_doubleSave {l : List UserDoc} {u fu u4 fu2 : UserDoc}
    (hne : u.uid ≠ fu.uid) (h4 : u4.uid = u.uid) (h2 : fu2.uid = fu.uid) :
    ∀ y ∈ saveUser (saveUser l fu2) u4,
      y = u4 ∨ y = fu2 ∨ (y ∈ l ∧ y.uid ≠ u.uid ∧ y.uid ≠ fu.uid) := by
  intro y hy
  obtain ⟨y1, hy1, hy1e⟩ := mem_saveUser hy
  obtain ⟨x, hx, hxe⟩ := mem_saveUser hy1
  rw [hxe] at hy1e
  by_cases hxf : x.uid == fu2.uid
  · rw [if_pos hxf] at hy1e
    have hcond : ¬ (fu2.uid == u4.uid) = true := by
      simp only [h2, h4, beq_iff_eq]
      exact fun e => hne e.symm
    rw [if_neg hcond] at hy1e
    right; left; exact hy1e
  · rw [if_neg hxf] at hy1e
    by_cases hxu : x.uid == u4.uid
    · rw [if_pos hxu] at hy1e
      left; exact hy1e
    · rw [if_neg hxu] at hy1e
      rw [hy1e]
      right; right
      refine ⟨hx, ?_, ?_⟩
      · simpa [h4] using hxu
      · simpa [h2] using hxf

theorem updateOne_follow (s : AppState) (uid : Nat) (t : String) (u fu : UserDoc)
    (hfind : findOneByUserId s.users uid = some u) (ht : t ≠ "")
    (hfu : findByUsernameExact s.users t = some fu) :
    UserCollection.updateOne s uid { following := some t } =
      .ok { s with users :=
          (saveUser (saveUser s.users { fu with followers := fu.followers ++ [u.username] })
            { u with following := u.following ++ [t] }) }
        { u with following := u.following ++ [t] } := by
  have htb : (t == "") = false := beq_eq_false_iff_ne.mpr ht
  unfold UserCollection.updateOne
  rw [hfind]
  simp [htb, hfu]

theorem updateOne_follow_empty (s : AppState) (uid : Nat) (u : UserDoc)
    (hfind : findOneByUserId s.users uid = some u) :
    UserCollection.updateOne s uid { following := some "" } =
      .ok { s with users := saveUser s.users u } u := by
  unfold UserCollection.updateOne
  rw [hfind]
  simp

theorem updateOne_unfollow (s : AppState) (uid : Nat) (t : String) (u fu : UserDoc)
    (hfind : findOneByUserId s.users uid = some u) (ht : t ≠ "")
    (hfu : findByUsernameExact s.users t = some fu) :
    UserCollection.updateOne s uid { following := some t, unfollow := true } =
      .ok { s with users :=
          (saveUser (saveUser s.users { fu with followers := fu.followers.erase u.username })
            { u with following := u.following.erase t }) }
        { u with following := u.following.erase t } := by
  have htb : (t == "") = false := beq_eq_false_iff_ne.mpr ht
  unfold UserCollection.updateOne
  rw [hfind]
  simp [htb, hfu]

theorem updateOne_unfollow_empty (s : AppState) (uid : Nat) (u : UserDoc)
    (hfind : findOneByUserId s.users uid = some u) :
    UserCollection.updateOne s uid { following := some "", unfollow := true } =
      .ok { s with users := saveUser s.users u } u := by
  unfold UserCollection.updateOne
  rw [hfind]
  simp

/-- Inversion of a successful follow: the session user resolves, the
    preconditions passed, and the new state is the double save of the
    updated documents (or, for the degenerate empty target, a save of the
    unchanged acting user, the JavaScript falsy-guard path). -/
theorem updateOne_follow_missing (s : AppState) (uid : Nat) (t : String) (u : UserDoc)
    (hfind : findOneByUserId s.users uid = some u) (ht : t ≠ "")
    (hfu : findByUsernameExact s.users t = none) :
    UserCollection.updateOne s uid { following := some t } = .crash := by
  have htb : (t == "") = false := beq_eq_false_iff_ne.mpr ht
  unfold UserCollection.updateOne
  rw [hfind]
  simp [htb, hfu]

theorem updateOne_unfollow_missing (s : AppState) (uid : Nat) (t : String) (u : UserDoc)
    (hfind : findOneByUserId s.users uid = some u) (ht : t ≠ "")
    (hfu : findByUsernameExact s.users t = none) :
    UserCollection.updateOne s uid { following := some t, unfollow := true } = .crash := by
  have htb : (t == "") = false := beq_eq_false_iff_ne.mpr ht
  unfold UserCollection.updateOne
  rw [hfind]
  simp [htb, hfu]

/-- Inversion of a successful follow: the session user resolves, the
    preconditions passed, and the new state is the double save of the
    updated documents (or, for the degenerate empty target, a save of the
    unchanged acting user, the JavaScript falsy-guard path). -/
theorem followRoute_ok_inv {s s2 : AppState} {uid : Nat} {t : String}
    (h : followRoute s (some uid) t = .ok s2) :
    ∃ u, findOneByUserId s.users uid = some u ∧ t ∉ u.following ∧ u.username ≠ t ∧
      ((t = "" ∧ s2 = { s with users := saveUser s.users u }) ∨
       (t ≠ "" ∧ ∃ fu, findByUsernameExact s.users t = some fu ∧
         s2 = { s with users :=
           (saveUser (saveUser s.users { fu with followers := fu.followers ++ [u.username] })
             { u with following := u.following ++ [t] }) })) := by
  unfold followRoute at h
  cases hfind : findOneByUserId s.users uid with
  | none =>
    simp only [hfind] at h
    exact RouteOutcome.noConfusion h
  | some u =>
    simp only [hfind] at h
    by_cases hmem : u.following.contains t = true
    · rw [if_pos hmem] at h
      exact RouteOutcome.noConfusion h
    · rw [if_neg hmem] at h
      by_cases hself : (u.username == t) = true
      · rw [if_pos hself] at h
        exact RouteOutcome.noConfusion h
      · rw [if_neg hself] at h
        have hmem2 : t ∉ u.following := by simpa using hmem
        have hself2 : u.username ≠ t := by simpa using hself
        refine ⟨u, rfl, hmem2, hself2, ?_⟩
        by_cases ht : t = ""
        · left
          refine ⟨ht, ?_⟩
          subst ht
          simp only [updateOne_follow_empty s uid u hfind] at h
          injection h with h2
          exact h2.symm
        · right
          refine ⟨ht, ?_⟩
          cases hfu : findByUsernameExact s.users t with
          | none =>
            simp only [updateOne_follow_missing s uid t u hfind ht hfu] at h
            exact RouteOutcome.noConfusion h
          | some fu =>
            refine ⟨fu, rfl, ?_⟩
            simp only [updateOne_follow s uid t u fu hfind ht hfu] at h
            injection h with h2
            exact h2.symm

/-- Inversion of a successful unfollow: the session user resolves, the
    edge existed, and the new state is the double save of the documents
    with the first occurrences erased (or, for the degenerate empty
    target, a save of the unchanged acting user). -/
theorem unfollowRoute_ok_inv {s s2 : AppState} {uid : Nat} {t : String}
    (h : unfollowRoute s (some uid) t = .ok s2) :
    ∃ u, findOneByUserId s.users uid = some u ∧ t ∈ u.following ∧
      ((t = "" ∧ s2 = { s with users := saveUser s.users u }) ∨
       (t ≠ "" ∧ ∃ fu, findByUsernameExact s.users t = some fu ∧
         s2 = { s with users :=
           (saveUser (saveUser s.users { fu with followers := fu.followers.erase u.username })
             { u with following := u.following.erase t }) })) := by
  unfold unfollowRoute at h
  cases hfind : findOneByUserId s.users uid with
  | none =>
    simp only [hfind] at h
    exact RouteOutcome.noConfusion h
  | some u =>
    simp only [hfind] at h
    by_cases hmem : u.following.contains t = true
    · rw [hmem] at h
      simp only [Bool.not_true, Bool.false_eq_true, if_false] at h
      have hmem2 : t ∈ u.following := by simpa using hmem
      refine ⟨u, rfl, hmem2, ?_⟩
      by_cases ht : t = ""
      · left
        refine ⟨ht, ?_⟩
        subst ht
        simp only [updateOne_unfollow_empty s uid u hfind] at h
        injection h with h2
        exact h2.symm
      · right
        refine ⟨ht, ?_⟩
        cases hfu : findByUsernameExact s.users t with
        | none =>
          simp only [updateOne_unfollow_missing s uid t u hfind ht hfu] at h
          exact RouteOutcome.noConfusion h
        | some fu =>
          refine ⟨fu, rfl, ?_⟩
          simp only [updateOne_unfollow s uid t u fu hfind ht hfu] at h
          injection h with h2
          exact h2.symm
    · have hb : u.following.contains t = false := by simpa using hmem
      rw [hb] at h
      simp only [Bool.not_false, if_true] at h
      exact RouteOutcome.noConfusion h

/-- A validated, completed follow preserves the well-formedness invariants,
    graph symmetry included. -/
theorem follow_preserves (s : AppState) (u fu : UserDoc) (t : String)
    (hwf : GraphWF s) (hu : u ∈ s.users) (hfu : fu ∈ s.users)
    (hfuname : fu.username = t) (hmem : t ∉ u.following) (hself : u.username ≠ t) :
    GraphWF { s with users :=
      (saveUser (saveUser s.users { fu with followers := fu.followers ++ [u.username] })
        { u with following := u.following ++ [t] }) } := by
  obtain ⟨hids, hnames, hedge, hnself, hsym⟩ := hwf
  unfold idsNodup at hids
  unfold namesNodup at hnames
  unfold edgeNodup at hedge
  unfold noSelfEdge at hnself
  unfold symInv at hsym
  have hufne : u ≠ fu := fun e => hself (by rw [e, hfuname])
  have huidne : u.uid ≠ fu.uid :=
    fun e => hufne (List.inj_on_of_nodup_map hids hu hfu e)
  have hfollowersnotin : u.username ∉ fu.followers := by
    intro hin
    exact hmem (by
      have := (hsym u hu fu hfu (by rw [hfuname]; exact hself)).mpr hin
      rwa [hfuname] at this)
  have tri := @mem_doubleSave s.users u fu
    { u with following := u.following ++ [t] }
    { fu with followers := fu.followers ++ [u.username] }
    huidne rfl rfl
  refine ⟨?_, ?_, ?_, ?_, ?_⟩
  · unfold idsNodup
    show ((saveUser _ _).map (fun x => x.uid)).Nodup
    rw [saveUser_map_uid, saveUser_map_uid]
    exact hids
  · unfold namesNodup
    show ((saveUser _ _).map (fun x => x.username)).Nodup
    rw [saveUser_map_username
      (saveUser s.users { fu with followers := fu.followers ++ [u.username] })
      { u with following := u.following ++ [t] } u
      (by rw [saveUser_map_uid]; exact hids)
      (mem_saveUser_of_mem hu huidne) rfl rfl]
    rw [saveUser_map_username s.users
      { fu with followers := fu.followers ++ [u.username] } fu hids hfu rfl rfl]
    exact hnames
  · unfold edgeNodup
    intro y hy
    rcases tri y hy with h4 | h2 | ⟨hyl, hy1, hy2⟩
    · subst h4
      constructor
      · show (u.following ++ [t]).Nodup
        simp [List.nodup_append, (hedge u hu).1, hmem]
      · exact (hedge u hu).2
    · subst h2
      constructor
      · exact (hedge fu hfu).1
      · show (fu.followers ++ [u.username]).Nodup
        simp [List.nodup_append, (hedge fu hfu).2, hfollowersnotin]
    · exact hedge y hyl
  · unfold noSelfEdge
    intro y hy
    rcases tri y hy with h4 | h2 | ⟨hyl, hy1, hy2⟩
    · subst h4
      show u.username ∉ u.following ++ [t]
      simp [List.mem_append, hnself u hu, hself]
    · subst h2
      exact hnself fu hfu
    · exact hnself y hyl
  · unfold symInv
    intro a ha b hb hab
    rcases tri a ha with ha4 | ha2 | ⟨hal, hau, haf⟩ <;>
      rcases tri b hb with hb4 | hb2 | ⟨hbl, hbu, hbf⟩
    · subst ha4; subst hb4
      exact absurd rfl hab
    · subst ha4; subst hb2
      show fu.username ∈ u.following ++ [t] ↔ u.username ∈ fu.followers ++ [u.username]
      rw [hfuname]
      simp [List.mem_append]
    · subst ha4
      have hbfu : b ≠ fu := fun e => hbf (by rw [e])
      have hbt : b.username ≠ t := by
        intro e
        exact hbfu (List.inj_on_of_nodup_map hnames hbl hfu (by rw [e, hfuname]))
      have hold := hsym u hu b hbl hab
      show b.username ∈ u.following ++ [t] ↔ u.username ∈ b.followers
      simp only [List.mem_append, List.mem_singleton, hbt, or_false]
      exact hold
    · subst ha2; subst hb4
      have hne2 : fu.username ≠ u.username := by
        rw [hfuname]; exact fun e => hself e.symm
      exact hsym fu hfu u hu hne2
    · subst ha2; subst hb2
      exact absurd rfl hab
    · subst ha2
      exact hsym fu hfu b hbl hab
    · subst hb4
      exact hsym a hal u hu hab
    · subst hb2
      have hafu : a ≠ u := fun e => hau (by rw [e])
      have hat : a.username ≠ u.username := by
        intro e
        exact hafu (List.inj_on_of_nodup_map hnames hal hu e)
      have hold := hsym a hal fu hfu hab
      show fu.username ∈ a.following ↔ a.username ∈ fu.followers ++ [u.username]
      simp only [List.mem_append, List.mem_singleton, hat, or_false]
      exact hold
    · exact hsym a hal b hbl hab

/-- A validated, completed unfollow preserves the well-formedness
    invariants, graph symmetry included. -/
theorem unfollow_preserves (s : AppState) (u fu : UserDoc) (t : String)
    (hwf : GraphWF s) (hu : u ∈ s.users) (hfu : fu ∈ s.users)
    (hfuname : fu.username = t) (hmem : t ∈ u.following) :
    GraphWF { s with users :=
      (saveUser (saveUser s.users { fu with followers := fu.followers.erase u.username })
        { u with following := u.following.erase t }) } := by
  obtain ⟨hids, hnames, hedge, hnself, hsym⟩ := hwf
  unfold idsNodup at hids
  unfold namesNodup at hnames
  unfold edgeNodup at hedge
  unfold noSelfEdge at hnself
  unfold symInv at hsym
  have hself : u.username ≠ t := by
    intro e
    exact hnself u hu (by rw [e]; exact hmem)
  have hufne : u ≠ fu := fun e => hself (by rw [e, hfuname])
  have huidne : u.uid ≠ fu.uid :=
    fun e => hufne (List.inj_on_of_nodup_map hids hu hfu e)
  have tri := @mem_doubleSave s.users u fu
    { u with following := u.following.erase t }
    { fu with followers := fu.followers.erase u.username }
    huidne rfl rfl
  refine ⟨?_, ?_, ?_, ?_, ?_⟩
  · unfold idsNodup
    show ((saveUser _ _).map (fun x => x.uid)).Nodup
    rw [saveUser_map_uid, saveUser_map_uid]
    exact hids
  · unfold namesNodup
    show ((saveUser _ _).map (fun x => x.username)).Nodup
    rw [saveUser_map_username
      (saveUser s.users { fu with followers := fu.followers.erase u.username })
      { u with following := u.following.erase t } u
      (by rw [saveUser_map_uid]; exact hids)
      (mem_saveUser_of_mem hu huidne) rfl rfl]
    rw [saveUser_map_username s.users
      { fu with followers := fu.followers.erase u.username } fu hids hfu rfl rfl]
    exact hnames
  · unfold edgeNodup
    intro y hy
    rcases tri y hy with h4 | h2 | ⟨hyl, hy1, hy2⟩
    · subst h4
      exact ⟨List.Nodup.erase t (hedge u hu).1, (hedge u hu).2⟩
    · subst h2
      exact ⟨(hedge fu hfu).1, List.Nodup.erase u.username (hedge fu hfu).2⟩
    · exact hedge y hyl
  · unfold noSelfEdge
    intro y hy
    rcases tri y hy with h4 | h2 | ⟨hyl, hy1, hy2⟩
    · subst h4
      show u.username ∉ (u.following.erase t)
      intro hin
      exact hnself u hu (List.mem_of_mem_erase hin)
    · subst h2
      exact hnself fu hfu
    · exact hnself y hyl
  · unfold symInv
    intro a ha b hb hab
    rcases tri a ha with ha4 | ha2 | ⟨hal, hau, haf⟩ <;>
      rcases tri b hb with hb4 | hb2 | ⟨hbl, hbu, hbf⟩
    · subst ha4; subst hb4
      exact absurd rfl hab
    · subst ha4; subst hb2
      show fu.username ∈ (u.following.erase t) ↔ u.username ∈ (fu.followers.erase u.username)
      rw [hfuname]
      constructor
      · intro hin
        exact absurd rfl (((hedge u hu).1.mem_erase_iff.mp hin).1)
      · intro hin
        exact absurd rfl (((hedge fu hfu).2.mem_erase_iff.mp hin).1)
    · subst ha4
      have hbfu : b ≠ fu := fun e => hbf (by rw [e])
      have hbt : b.username ≠ t := by
        intro e
        exact hbfu (List.inj_on_of_nodup_map hnames hbl hfu (by rw [e, hfuname]))
      have hold := hsym u hu b hbl hab
      show b.username ∈ (u.following.erase t) ↔ u.username ∈ b.followers
      rw [(hedge u hu).1.mem_erase_iff]
      simp only [hbt, ne_eq, not_false_iff, true_and]
      exact hold
    · subst ha2; subst hb4
      have hne2 : fu.username ≠ u.username := by
        rw [hfuname]; exact fun e => hself e.symm
      exact hsym fu hfu u hu hne2
    · subst ha2; subst hb2
      exact absurd rfl hab
    · subst ha2
      exact hsym fu hfu b hbl hab
    · subst hb4
      exact hsym a hal u hu hab
    · subst hb2
      have hafu : a ≠ u := fun e => hau (by rw [e])
      have hat : a.username ≠ u.username := by
        intro e
        exact hafu (List.inj_on_of_nodup_map hnames hal hu e)
      have hold := hsym a hal fu hfu hab
      show fu.username ∈ a.following ↔ a.username ∈ (fu.followers.erase u.username)
      rw [(hedge fu hfu).2.mem_erase_iff]
      simp only [hat, ne_eq, not_false_iff, true_and]
      exact hold
    · exact hsym a hal b hbl hab

theorem applyGraphOp_preserves {s s2 : AppState} {op : GraphOp}
    (hwf : GraphWF s) (h : applyGraphOp s op = .ok s2) : GraphWF s2 := by
  cases op with
  | follow uid t =>
    obtain ⟨u, hfind, hmem, hself, hcase⟩ := followRoute_ok_inv h
    have hu : u ∈ s.users := List.mem_of_find?_eq_some hfind
    rcases hcase with ⟨ht, hs2⟩ | ⟨ht, fu, hfu, hs2⟩
    · subst hs2
      have heq : saveUser s.users u = s.users :=
        saveUser_eq_self s.users u
          (fun x hx hxe => List.inj_on_of_nodup_map hwf.1 hx hu hxe)
      have h3 : ({ s with users := saveUser s.users u } : AppState) = s := by rw [heq]
      rw [h3]
      exact hwf
    · subst hs2
      have hfumem : fu ∈ s.users := List.mem_of_find?_eq_some hfu
      have hfn : fu.username = t := by simpa using List.find?_some hfu
      exact follow_preserves s u fu t hwf hu hfumem hfn hmem hself
  | unfollow uid t =>
    obtain ⟨u, hfind, hmem, hcase⟩ := unfollowRoute_ok_inv h
    have hu : u ∈ s.users := List.mem_of_find?_eq_some hfind
    rcases hcase with ⟨ht, hs2⟩ | ⟨ht, fu, hfu, hs2⟩
    · subst hs2
      have heq : saveUser s.users u = s.users :=
        saveUser_eq_self s.users u
          (fun x hx hxe => List.inj_on_of_nodup_map hwf.1 hx hu hxe)
      have h3 : ({ s with users := saveUser s.users u } : AppState) = s := by rw [heq]
      rw [h3]
      exact hwf
    · subst hs2
      have hfumem : fu ∈ s.users := List.mem_of_find?_eq_some hfu
      have hfn : fu.username = t := by simpa using List.find?_some hfu
      exact unfollow_preserves s u fu t hwf hu hfumem hfn hmem

theorem runGraph_preserves {ops : List GraphOp} :
    ∀ {s s2 : AppState}, GraphWF s → runGraph s ops = some s2 → GraphWF s2 := by
  induction ops with
  | nil =>
    intro s s2 hwf h
    unfold runGraph at h
    cases h
    exact hwf
  | cons op rest ih =>
    intro s s2 hwf h
    unfold runGraph at h
    cases hop : applyGraphOp s op with
    | ok s1 =>
      rw [hop] at h
      exact ih (applyGraphOp_preserves hwf hop) h
    | err e s1 =>
      rw [hop] at h
      exact Option.noConfusion h
    | crash s1 =>
      rw [hop] at h
      exact Option.noConfusion h

/-- C1 amended. Starting from a well-formed state - distinct user ids and
    usernames, duplicate-free following and followers lists, no self-edges -
    that satisfies graph symmetry, after any sequence of follow and unfollow
    operations that pass their precondition checks and complete, the final
    state again satisfies graph symmetry: for all users A and B with
    distinct usernames, B.username is in A.following iff A.username is in
    B.followers. The edge-uniqueness part of the hypothesis is necessary:
    graph symmetry alone is not preserved (see the duplicate-edge
    counterexample). -/
theorem graph_symmetry_preserved (s s2 : AppState) (ops : List GraphOp)
    (hwf : GraphWF s) (hrun : runGraph s ops = some s2) : symInv s2 :=
  (runGraph_preserves hwf hrun).2.2.2.2

theorem graph_symmetry_preserved_witness : symInv twoUserStateAfter :=
  graph_symmetry_preserved twoUserState twoUserStateAfter
    [GraphOp.follow 0 "b"] (by decide) (by decide)

/-- C1 fails on the code as literally stated: this state satisfies the
    graph-symmetry invariant (as a membership property) but has a duplicate
    edge entry, and one validated unfollow - its precondition, the edge
    being present, holds - produces a state in which symmetry is broken:
    b remains in the following list of a while a is gone from the followers
    list of b. -/
theorem graph_symmetry_not_preserved_with_duplicates :
    symInv dupEdgeState ∧
    runGraph dupEdgeState [GraphOp.unfollow 0 "b"] = some dupEdgeStateAfter ∧
    ¬ symInv dupEdgeStateAfter := by
  refine ⟨by decide, by decide, by decide⟩











